import Mathlib

/-!
Verification of the scanning-and-substitution engine of `caddy-lua`
(`src/lua.go`), against its natural-language specification.

The engine is `Interpret(out io.Writer, src []byte) error`: a single pass
over the document bytes, switching between literal mode and in-script mode
at the `<?lua` / `?>` markers, dispatching each accumulated script chunk to
an embedded Lua interpreter and copying the output captured by the
registered `print` binding into the destination sink.

Modelling conventions:
* document bytes are `List Nat` (one `Nat` per byte);
* the destination `io.Writer` is a `Sink σ`: a write function returning the
  new sink state and an optional error, mirroring Go's `(n, err)` protocol;
* the embedded Lua interpreter (the external `gopher-lua` dependency, not
  part of this repository) is an oracle `exec : List Nat → ExecResult`
  giving, for a script chunk, the sequence of calls the chunk makes to the
  registered `print` binding and the final error, if any;
* the driver loop is defined with an explicit fuel argument equal to the
  number of remaining bytes, making it structurally recursive (hence
  kernel-evaluable); `interpLoopF_irrel` shows the fuel is irrelevant once
  it dominates the input length;
* besides the sink state and the error, the model returns the list of
  script chunks dispatched to the interpreter (in order) and the final
  value of the line counter, which are the observables the specification
  talks about.
-/

namespace CaddyLua

/-- Byte value of the newline character, the only line terminator the scanner
counts (Go: `if src[i] == '\n' { line++ }`). -/
def nl : Nat := 10

/-- The fixed open-marker byte sequence `<?lua`
(Go: `var startSeq = []byte{'<', '?', 'l', 'u', 'a'}`). -/
def startSeq : List Nat := [60, 63, 108, 117, 97]

/-- The fixed close-marker byte sequence `?>` (matched inline by `isEnd`). -/
def closeSeq : List Nat := [63, 62]

/-- Translation of Go `isStart(start int, slice []byte) bool`: return false
when `start+5 >= len(slice)`, otherwise compare the five marker bytes
`startSeq[i]` with `slice[start+i]`. -/
def isStart (start : Nat) (slice : List Nat) : Bool :=
  if start + 5 ≥ slice.length then false
  else (List.range 5).all fun i => startSeq.getD i 0 == slice.getD (start + i) 0

/-- Translation of Go `isEnd(start int, slice []byte) bool`: return false when
`start+1 >= len(slice)`, otherwise test `slice[start] == '?' &&
slice[start+1] == '>'`. -/
def isEnd (start : Nat) (slice : List Nat) : Bool :=
  if start + 1 ≥ slice.length then false
  else slice.getD start 0 == 63 && slice.getD (start + 1) 0 == 62

/-- A prefix of `l` agrees with `P` pointwise (by `getD`) exactly when
`l.take P.length = P`, provided `l` is long enough. -/
theorem take_eq_iff_getD (P : List Nat) :
    ∀ l : List Nat, P.length ≤ l.length →
      (l.take P.length = P ↔ ∀ i < P.length, P.getD i 0 = l.getD i 0) := by
  induction P with
  | nil => intro l _; simp
  | cons q P ih =>
    intro l hl
    cases l with
    | nil => simp at hl
    | cons b l =>
      simp only [List.length_cons, Nat.succ_le_succ_iff] at hl
      simp only [List.length_cons, List.take_succ_cons, List.cons.injEq]
      rw [ih l hl]
      constructor
      · rintro ⟨hb, hP⟩ i hi
        cases i with
        | zero => simpa using hb.symm
        | succ i =>
          have := hP i (Nat.lt_of_succ_lt_succ hi)
          simpa using this
      · intro h
        refine ⟨?_, ?_⟩
        · have := h 0 (Nat.succ_pos _)
          simpa using this.symm
        · intro i hi
          have := h (i + 1) (Nat.succ_lt_succ hi)
          simpa using this

/-- `getD` into a dropped list, re-indexed. -/
theorem getD_drop_eq (l : List Nat) (p i d : Nat) :
    (l.drop p).getD i d = l.getD (p + i) d := by
  simp [List.getD_eq_getElem?_getD, List.getElem?_drop]

/-- Characterization of `isStart`: it holds exactly when the five marker
bytes occur at `p` and at least one byte follows them (the Go bound is
`start+5 >= len(slice)`, so a document ending exactly with `<?lua` does not
match). -/
theorem isStart_iff (p : Nat) (s : List Nat) :
    isStart p s = true ↔ p + 5 < s.length ∧ (s.drop p).take 5 = startSeq := by
  unfold isStart
  split
  · rename_i h
    simp only [Bool.false_eq_true, false_iff, not_and]
    intro hlt
    omega
  · rename_i h
    push_neg at h
    have hlen : startSeq.length ≤ (s.drop p).length := by
      simp only [List.length_drop, startSeq]
      simp only [List.length_cons, List.length_nil]
      omega
    have hchar := take_eq_iff_getD startSeq (s.drop p) hlen
    have hSlen : startSeq.length = 5 := by rfl
    rw [hSlen] at hchar
    constructor
    · intro hall
      refine ⟨h, ?_⟩
      rw [hchar]
      intro i hi
      rw [getD_drop_eq]
      have := List.all_eq_true.mp hall i (List.mem_range.mpr hi)
      exact of_decide_eq_true (by simpa using this)
    · rintro ⟨-, htake⟩
      rw [hchar] at htake
      apply List.all_eq_true.mpr
      intro i hi
      have hi5 := List.mem_range.mp hi
      have := htake i hi5
      rw [getD_drop_eq] at this
      simpa using this

/-- Characterization of `isEnd`: it holds exactly when the two close-marker
bytes `?>` occur at `p`, entirely within bounds. -/
theorem isEnd_iff (p : Nat) (s : List Nat) :
    isEnd p s = true ↔ p + 1 < s.length ∧ (s.drop p).take 2 = closeSeq := by
  unfold isEnd
  split
  · rename_i h
    simp only [Bool.false_eq_true, false_iff, not_and]
    intro hlt
    omega
  · rename_i h
    push_neg at h
    have hlen : closeSeq.length ≤ (s.drop p).length := by
      simp only [List.length_drop, closeSeq]
      simp only [List.length_cons, List.length_nil]
      omega
    have hchar := take_eq_iff_getD closeSeq (s.drop p) hlen
    have hClen : closeSeq.length = 2 := by rfl
    rw [hClen] at hchar
    constructor
    · intro hb
      refine ⟨h, ?_⟩
      rw [hchar]
      intro i hi
      interval_cases i <;>
        simp only [getD_drop_eq] <;>
        [skip; skip] <;>
        first
        | (have h1 := (Bool.and_eq_true _ _).mp hb |>.1
           simp only [closeSeq, List.getD_cons_zero]
           exact (beq_iff_eq.mp h1).symm ▸ rfl)
        | (have h2 := (Bool.and_eq_true _ _).mp hb |>.2
           simp only [closeSeq, List.getD_cons_succ, List.getD_cons_zero]
           exact (beq_iff_eq.mp h2).symm ▸ rfl)
    · rintro ⟨-, htake⟩
      rw [hchar] at htake
      have h0 := htake 0 (by omega)
      have h1 := htake 1 (by omega)
      rw [getD_drop_eq] at h0 h1
      simp only [closeSeq, List.getD_cons_zero, List.getD_cons_succ] at h0 h1
      simp only [beq_iff_eq, Bool.and_eq_true]
      refine ⟨?_, ?_⟩
      · simpa using h0.symm
      · simpa using h1.symm

/-- The open marker does not overlap itself: no proper shift of `<?lua`
matches its own prefix. -/
theorem startSeq_no_self_overlap :
    ∀ k, 1 ≤ k → k ≤ 4 → startSeq.take (5 - k) ≠ startSeq.drop k := by
  decide

/-- Bytes of a string (one `Nat` per character; all documents used here are
ASCII, matching Go's byte-level scanning). -/
def strBytes (s : String) : List Nat := s.data.map Char.toNat

/-- Outcome of executing one script chunk on the embedded interpreter
(`L.DoString` in Go): the sequence of calls the chunk makes to the
registered `print` binding, each with its arguments already converted to
their textual representations (`L.Get(i).String()`), and the error
`DoString` returns, `none` on success. -/
structure ExecResult where
  prints : List (List String)
  err : Option String
deriving DecidableEq

/-- Argument part of the print binding's output: the Go loop writes argument
`i` and then a single space whenever `i != top`. -/
def printArgsBytes : List String → List Nat
  | [] => []
  | [a] => strBytes a
  | a :: b :: rest => strBytes a ++ strBytes " " ++ printArgsBytes (b :: rest)

/-- The `print` binding registered on the interpreter via
`L.SetGlobal("print", ...)`: appends the space-separated arguments and one
trailing `"\n"` to the script output buffer and returns no values to the
script (Go: `return 0`); the second component is the list of values
returned to the script. -/
def printBinding (args : List String) (luaOut : List Nat) : List Nat × List String :=
  (luaOut ++ printArgsBytes args ++ strBytes "\n", [])

/-- Effect of a chunk's print calls on the script output buffer. -/
def runPrints (prints : List (List String)) (luaOut : List Nat) : List Nat :=
  prints.foldl (fun b args => (printBinding args b).1) luaOut

/-- Output captured for one chunk starting from an empty buffer. -/
def printsBytes (prints : List (List String)) : List Nat := runPrints prints []

/-- The destination sink (`io.Writer`): a write returns the new sink state
together with an optional error, mirroring Go's `(n, err)` return. -/
structure Sink (σ : Type) where
  write : σ → List Nat → σ × Option String

/-- The plain in-memory sink (`bytes.Buffer`): writes always succeed. -/
def listSink : Sink (List Nat) :=
  ⟨fun s bs => (s ++ bs, none), ⟩

/-- A sink whose writes always fail, keeping its state unchanged. -/
def failSink : Sink (List Nat) :=
  ⟨fun s _ => (s, some "write failed"), ⟩

/-- The two error shapes `Interpret` can return: the wrapped interpreter
failure `fmt.Errorf("Lua Error (Line %d): %s", line, err)` and a propagated
sink write error. -/
inductive InterpError where
  | luaErr (line : Nat) (msg : String)
  | writeErr (msg : String)
deriving DecidableEq

/-- Rendering of an `InterpError` as Go formats it. -/
def errString : InterpError → String
  | .luaErr line msg => "Lua Error (Line " ++ toString line ++ "): " ++ msg
  | .writeErr msg => msg

/-- The scan loop of `Interpret` (`for i := 0; i < len(src); i++ { ... }`
plus the trailing end-of-document block), defined by structural recursion on
an explicit fuel that dominates the number of remaining bytes.  State:
`inCode` (the Literal / InScript mode), `line` (the 1-based line counter),
`luaIn` (the pending script buffer), `luaOut` (the script output buffer) and
`out` (the sink state).  Returns the final sink state together with either
the error or the pair of (chunks dispatched to `L.DoString`, in order; final
line counter). -/
def interpLoopF (exec : List Nat → ExecResult) {σ : Type} (W : Sink σ) :
    List Nat → Nat → Bool → Nat → List Nat → List Nat → σ →
    σ × Except InterpError (List (List Nat) × Nat)
  | [], _, inCode, line, luaIn, luaOut, out =>
    -- end of document (Go: after the loop, `if inCode && luaIn.Len() > 0`)
    if inCode && !luaIn.isEmpty then
      match (exec luaIn).err with
      | some msg => (out, .error (.luaErr line msg))
      | none =>
        -- `out.Write(luaOut.Bytes())` with the write error discarded
        ((W.write out (runPrints (exec luaIn).prints luaOut)).1, .ok ([luaIn], line))
    else (out, .ok ([], line))
  | _ :: _, 0, _, line, _, _, out =>
    -- out of fuel; unreachable whenever the fuel dominates the length
    (out, .ok ([], line))
  | b :: rest, f + 1, inCode, line, luaIn, luaOut, out =>
    -- Go: `if src[i] == '\n' { line++ }`
    let line2 := if b = nl then line + 1 else line
    if inCode then
      if isEnd 0 (b :: rest) then
        -- skip `?` and `>`, dispatch the pending chunk
        match (exec luaIn).err with
        | some msg => (out, .error (.luaErr line2 msg))
        | none =>
          -- `out.Write(luaOut.Bytes())` with the write error discarded,
          -- then `luaIn.Reset(); luaOut.Reset(); inCode = false`
          let r := interpLoopF exec W rest.tail f false line2 [] []
            (W.write out (runPrints (exec luaIn).prints luaOut)).1
          (r.1, match r.2 with
            | .error e => .error e
            | .ok (tr, ln) => .ok (luaIn :: tr, ln))
      else
        interpLoopF exec W rest f true line2 (luaIn ++ [b]) luaOut out
    else
      if isStart 0 (b :: rest) then
        -- `i += 4` plus the loop increment: skip the whole open marker
        interpLoopF exec W (rest.drop 4) f true line2 luaIn luaOut out
      else
        -- copy one literal byte, propagating a write error
        match W.write out [b] with
        | (out2, some e) => (out2, .error (.writeErr e))
        | (out2, none) => interpLoopF exec W rest f false line2 luaIn luaOut out2

/-- The loop with fuel equal to the number of remaining bytes. -/
def interpLoop (exec : List Nat → ExecResult) {σ : Type} (W : Sink σ)
    (src : List Nat) (inCode : Bool) (line : Nat)
    (luaIn luaOut : List Nat) (out : σ) :
    σ × Except InterpError (List (List Nat) × Nat) :=
  interpLoopF exec W src src.length inCode line luaIn luaOut out

/-- Model of Go `Interpret(out io.Writer, src []byte) error`: one fresh
interpreter session with the print binding registered once (both folded into
`exec`), then the scan starting in Literal mode with `line = 1` and empty
buffers. -/
def Interpret (exec : List Nat → ExecResult) {σ : Type} (W : Sink σ)
    (out : σ) (src : List Nat) :
    σ × Except InterpError (List (List Nat) × Nat) :=
  interpLoop exec W src false 1 [] [] out

/-- Number of newline bytes in a byte list. -/
def countNl (l : List Nat) : Nat := l.count nl

/-- The fuel is irrelevant as soon as it dominates the number of remaining
bytes: each iteration consumes at least one byte. -/
theorem interpLoopF_irrel (exec : List Nat → ExecResult) {σ : Type} (W : Sink σ) :
    ∀ (f g : Nat) (src : List Nat) (inCode : Bool) (line : Nat)
      (luaIn luaOut : List Nat) (out : σ),
      src.length ≤ f → src.length ≤ g →
      interpLoopF exec W src f inCode line luaIn luaOut out =
        interpLoopF exec W src g inCode line luaIn luaOut out := by
  intro f
  induction f with
  | zero =>
    intro g src inCode line luaIn luaOut out hf _
    cases src with
    | nil => cases g <;> rfl
    | cons b rest => simp at hf
  | succ f ih =>
    intro g src inCode line luaIn luaOut out hf hg
    cases src with
    | nil => cases g <;> rfl
    | cons b rest =>
      cases g with
      | zero => simp at hg
      | succ g =>
        simp only [List.length_cons, Nat.succ_le_succ_iff] at hf hg
        have htail : rest.tail.length ≤ f := by
          simp only [List.length_tail]; omega
        have htail' : rest.tail.length ≤ g := by
          simp only [List.length_tail]; omega
        have hdrop : (rest.drop 4).length ≤ f := by
          simp only [List.length_drop]; omega
        have hdrop' : (rest.drop 4).length ≤ g := by
          simp only [List.length_drop]; omega
        simp only [interpLoopF]
        cases inCode with
        | true =>
          simp only [if_true]
          by_cases hend : isEnd 0 (b :: rest) = true
          · simp only [hend, if_true]
            cases (exec luaIn).err with
            | some msg => rfl
            | none =>
              simp only []
              rw [ih g rest.tail false _ [] [] _ htail htail']
          · simp only [Bool.not_eq_true] at hend
            simp only [hend, Bool.false_eq_true, if_false]
            exact ih g rest true _ (luaIn ++ [b]) luaOut out hf hg
        | false =>
          simp only [Bool.false_eq_true, if_false]
          by_cases hstart : isStart 0 (b :: rest) = true
          · simp only [hstart, if_true]
            exact ih g (rest.drop 4) true _ luaIn luaOut out hdrop hdrop'
          · simp only [Bool.not_eq_true] at hstart
            simp only [hstart, Bool.false_eq_true, if_false]
            rcases hw : W.write out [b] with ⟨out2, e⟩
            cases e with
            | some err => rfl
            | none => exact ih g rest false _ luaIn luaOut out2 hf hg

/-- Unfolding of the loop at end of document. -/
theorem interpLoop_nil (exec : List Nat → ExecResult) {σ : Type} (W : Sink σ)
    (inCode : Bool) (line : Nat) (luaIn luaOut : List Nat) (out : σ) :
    interpLoop exec W [] inCode line luaIn luaOut out =
      if inCode && !luaIn.isEmpty then
        match (exec luaIn).err with
        | some msg => (out, .error (.luaErr line msg))
        | none =>
          ((W.write out (runPrints (exec luaIn).prints luaOut)).1, .ok ([luaIn], line))
      else (out, .ok ([], line)) := rfl

/-- Literal mode, no marker, successful write: copy one byte and continue. -/
theorem interpLoop_lit_step (exec : List Nat → ExecResult) {σ : Type} (W : Sink σ)
    (b : Nat) (rest : List Nat) (line : Nat) (luaIn luaOut : List Nat)
    (out out2 : σ)
    (hstart : isStart 0 (b :: rest) = false)
    (hw : W.write out [b] = (out2, none)) :
    interpLoop exec W (b :: rest) false line luaIn luaOut out =
      interpLoop exec W rest false (if b = nl then line + 1 else line)
        luaIn luaOut out2 := by
  simp only [interpLoop, List.length_cons, interpLoopF, hstart, Bool.false_eq_true,
    if_false, hw]

/-- Literal mode, no marker, failing write: propagate the write error. -/
theorem interpLoop_write_fail (exec : List Nat → ExecResult) {σ : Type} (W : Sink σ)
    (b : Nat) (rest : List Nat) (line : Nat) (luaIn luaOut : List Nat)
    (out out2 : σ) (e : String)
    (hstart : isStart 0 (b :: rest) = false)
    (hw : W.write out [b] = (out2, some e)) :
    interpLoop exec W (b :: rest) false line luaIn luaOut out =
      (out2, .error (.writeErr e)) := by
  simp only [interpLoop, List.length_cons, interpLoopF, hstart, Bool.false_eq_true,
    if_false, hw]

/-- Literal mode at an open marker: skip the five marker bytes and switch to
InScript mode.  The first marker byte is `<`, not a newline, so the line
counter is unchanged. -/
theorem interpLoop_open (exec : List Nat → ExecResult) {σ : Type} (W : Sink σ)
    (b : Nat) (rest : List Nat) (line : Nat) (luaIn luaOut : List Nat) (out : σ)
    (hstart : isStart 0 (b :: rest) = true) :
    interpLoop exec W (b :: rest) false line luaIn luaOut out =
      interpLoop exec W (rest.drop 4) true line luaIn luaOut out := by
  have hb : b = 60 := by
    have h := (isStart_iff 0 (b :: rest)).mp hstart
    have := h.2
    simp only [List.drop_zero, List.take_succ_cons, startSeq, List.cons.injEq] at this
    exact this.1
  have hbn : ¬ b = nl := by rw [hb]; simp [nl]
  simp only [interpLoop, List.length_cons, interpLoopF, hstart, if_true, hbn,
    if_false]
  exact interpLoopF_irrel exec W rest.length (rest.drop 4).length (rest.drop 4)
    true line luaIn luaOut out (by simp [List.length_drop]) (le_refl _)

/-- InScript mode, not at the close marker: append the byte to the pending
script buffer. -/
theorem interpLoop_script_byte (exec : List Nat → ExecResult) {σ : Type} (W : Sink σ)
    (b : Nat) (rest : List Nat) (line : Nat) (luaIn luaOut : List Nat) (out : σ)
    (hend : isEnd 0 (b :: rest) = false) :
    interpLoop exec W (b :: rest) true line luaIn luaOut out =
      interpLoop exec W rest true (if b = nl then line + 1 else line)
        (luaIn ++ [b]) luaOut out := by
  simp only [interpLoop, List.length_cons, interpLoopF, hend, Bool.false_eq_true,
    if_false, if_true]

/-- InScript mode at the close marker, failing dispatch: abort with the
wrapped interpreter error at the current line.  The byte under the cursor is
`?`, not a newline, so the line counter is unchanged. -/
theorem interpLoop_dispatch_err (exec : List Nat → ExecResult) {σ : Type} (W : Sink σ)
    (b : Nat) (rest : List Nat) (line : Nat) (luaIn luaOut : List Nat) (out : σ)
    (msg : String)
    (hend : isEnd 0 (b :: rest) = true)
    (he : (exec luaIn).err = some msg) :
    interpLoop exec W (b :: rest) true line luaIn luaOut out =
      (out, .error (.luaErr line msg)) := by
  have hb : b = 63 := by
    have h := (isEnd_iff 0 (b :: rest)).mp hend
    have := h.2
    cases rest with
    | nil => simp at h
    | cons c rest' =>
      simp only [List.drop_zero, List.take_succ_cons, List.take_zero, closeSeq,
        List.cons.injEq] at this
      exact this.1
  have hbn : ¬ b = nl := by rw [hb]; simp [nl]
  simp only [interpLoop, List.length_cons, interpLoopF, hend, if_true, hbn,
    if_false, he]

/-- InScript mode at the close marker, successful dispatch: flush the script
output buffer to the sink (ignoring the write error), reset both buffers,
record the dispatched chunk and continue in Literal mode past the marker. -/
theorem interpLoop_dispatch_ok (exec : List Nat → ExecResult) {σ : Type} (W : Sink σ)
    (b : Nat) (rest : List Nat) (line : Nat) (luaIn luaOut : List Nat) (out : σ)
    (hend : isEnd 0 (b :: rest) = true)
    (he : (exec luaIn).err = none) :
    interpLoop exec W (b :: rest) true line luaIn luaOut out =
      (let r := interpLoop exec W rest.tail false line [] []
        (W.write out (runPrints (exec luaIn).prints luaOut)).1
       (r.1, match r.2 with
         | .error e => .error e
         | .ok (tr, ln) => .ok (luaIn :: tr, ln))) := by
  have hb : b = 63 := by
    have h := (isEnd_iff 0 (b :: rest)).mp hend
    have := h.2
    cases rest with
    | nil => simp at h
    | cons c rest' =>
      simp only [List.drop_zero, List.take_succ_cons, List.take_zero, closeSeq,
        List.cons.injEq] at this
      exact this.1
  have hbn : ¬ b = nl := by rw [hb]; simp [nl]
  simp only [interpLoop, List.length_cons, interpLoopF, hend, if_true, hbn,
    if_false, he]
  rw [interpLoopF_irrel exec W rest.length rest.tail.length rest.tail
    false line [] [] _ (by simp [List.length_tail]) (le_refl _)]

/-- `l` contains no occurrence of the open marker `<?lua`. -/
def noOpenOcc (l : List Nat) : Prop :=
  ∀ j < l.length, (l.drop j).take 5 ≠ startSeq

/-- `l` contains no occurrence of the close marker `?>`. -/
def noCloseOcc (l : List Nat) : Prop :=
  ∀ j < l.length, (l.drop j).take 2 ≠ closeSeq

instance (l : List Nat) : Decidable (noOpenOcc l) := by
  unfold noOpenOcc; infer_instance

instance (l : List Nat) : Decidable (noCloseOcc l) := by
  unfold noCloseOcc; infer_instance

/-- Shifting `isStart` past one leading byte. -/
theorem isStart_cons_succ (b p : Nat) (s : List Nat) :
    isStart (p + 1) (b :: s) = isStart p s := by
  rw [Bool.eq_iff_iff, isStart_iff, isStart_iff, List.drop_succ_cons,
    List.length_cons]
  constructor
  · rintro ⟨h1, h2⟩; exact ⟨by omega, h2⟩
  · rintro ⟨h1, h2⟩; exact ⟨by omega, h2⟩

/-- Shifting `isEnd` past one leading byte. -/
theorem isEnd_cons_succ (b p : Nat) (s : List Nat) :
    isEnd (p + 1) (b :: s) = isEnd p s := by
  rw [Bool.eq_iff_iff, isEnd_iff, isEnd_iff, List.drop_succ_cons,
    List.length_cons]
  constructor
  · rintro ⟨h1, h2⟩; exact ⟨by omega, h2⟩
  · rintro ⟨h1, h2⟩; exact ⟨by omega, h2⟩

/-- One leading byte adds one to the newline count when it is a newline. -/
theorem countNl_cons (b : Nat) (l : List Nat) :
    countNl (b :: l) = (if b = nl then 1 else 0) + countNl l := by
  simp only [countNl, List.count_cons]
  by_cases hb : b = nl <;> simp [hb] <;> omega

/-- The newline count is additive over concatenation. -/
theorem countNl_append (l1 l2 : List Nat) :
    countNl (l1 ++ l2) = countNl l1 + countNl l2 := by
  simp [countNl, List.count_append]

/-- Copying a run of literal bytes: as long as no open marker fires, each
byte is written through to the in-memory sink and the line counter counts
the newlines passed. -/
theorem interpLoop_copy_run (exec : List Nat → ExecResult)
    (lit : List Nat) :
    ∀ (tail : List Nat) (line : Nat) (luaIn luaOut out : List Nat),
    (∀ j < lit.length, isStart j (lit ++ tail) = false) →
    interpLoop exec listSink (lit ++ tail) false line luaIn luaOut out =
      interpLoop exec listSink tail false (line + countNl lit)
        luaIn luaOut (out ++ lit) := by
  induction lit with
  | nil => intro tail line luaIn luaOut out _; simp [countNl, nl]
  | cons b lit ih =>
    intro tail line luaIn luaOut out h
    have h0 : isStart 0 (b :: (lit ++ tail)) = false := by
      have := h 0 (by simp)
      simpa using this
    have hshift : ∀ j < lit.length, isStart j (lit ++ tail) = false := by
      intro j hj
      have := h (j + 1) (by simpa using Nat.succ_lt_succ hj)
      rwa [List.cons_append, isStart_cons_succ] at this
    have hw : listSink.write out [b] = (out ++ [b], none) := rfl
    rw [List.cons_append,
      interpLoop_lit_step exec listSink b (lit ++ tail) line luaIn luaOut out
        (out ++ [b]) h0 hw,
      ih tail _ luaIn luaOut (out ++ [b]) hshift]
    have harith : (if b = nl then line + 1 else line) + countNl lit =
        line + countNl (b :: lit) := by
      rw [countNl_cons]
      by_cases hb : b = nl <;> simp [hb] <;> omega
    have happ : (out ++ [b]) ++ lit = out ++ (b :: lit) := by simp
    rw [harith, happ]

/-- Scanning a run of script bytes: as long as no close marker fires, each
byte is appended to the pending script buffer, for any sink. -/
theorem interpLoop_script_run (exec : List Nat → ExecResult) {σ : Type}
    (W : Sink σ) (scr : List Nat) :
    ∀ (tail : List Nat) (line : Nat) (luaIn luaOut : List Nat) (out : σ),
    (∀ j < scr.length, isEnd j (scr ++ tail) = false) →
    interpLoop exec W (scr ++ tail) true line luaIn luaOut out =
      interpLoop exec W tail true (line + countNl scr)
        (luaIn ++ scr) luaOut out := by
  induction scr with
  | nil => intro tail line luaIn luaOut out _; simp [countNl, nl]
  | cons b scr ih =>
    intro tail line luaIn luaOut out h
    have h0 : isEnd 0 (b :: (scr ++ tail)) = false := by
      have := h 0 (by simp)
      simpa using this
    have hshift : ∀ j < scr.length, isEnd j (scr ++ tail) = false := by
      intro j hj
      have := h (j + 1) (by simpa using Nat.succ_lt_succ hj)
      rwa [List.cons_append, isEnd_cons_succ] at this
    rw [List.cons_append,
      interpLoop_script_byte exec W b (scr ++ tail) line luaIn luaOut out h0,
      ih tail _ (luaIn ++ [b]) luaOut out hshift]
    have harith : (if b = nl then line + 1 else line) + countNl scr =
        line + countNl (b :: scr) := by
      rw [countNl_cons]
      by_cases hb : b = nl <;> simp [hb] <;> omega
    have happ : (luaIn ++ [b]) ++ scr = luaIn ++ (b :: scr) := by simp
    rw [harith, happ]

/-- A literal run containing no occurrence of `<?lua` and followed by the
open marker never triggers `isStart` early: an occurrence inside the run is
excluded by hypothesis, and an occurrence straddling the boundary would make
the marker overlap itself. -/
theorem noOpen_context (lit r : List Nat) (h : noOpenOcc lit) :
    ∀ j < lit.length, isStart j (lit ++ startSeq ++ r) = false := by
  intro j hj
  by_contra hs
  rw [Bool.not_eq_false, isStart_iff] at hs
  obtain ⟨hlen, hwin⟩ := hs
  rw [List.append_assoc, List.drop_append_eq_append_drop,
    List.take_append_eq_append_take] at hwin
  by_cases hcase : j + 5 ≤ lit.length
  · -- the window lies inside `lit`: a forbidden occurrence
    have hz : 5 - (List.drop j lit).length = 0 := by
      simp only [List.length_drop]; omega
    rw [hz, List.take_zero, List.append_nil] at hwin
    exact h j hj hwin
  · -- the window straddles the boundary: lit supplies k bytes, 1 ≤ k ≤ 4
    push_neg at hcase
    have hk1 : lit.length - j ≤ 4 := by omega
    have hk2 : 1 ≤ lit.length - j := by omega
    have hs5 : startSeq.length = 5 := rfl
    have hdj : (List.drop j lit).length = lit.length - j := by
      simp [List.length_drop]
    have ht5 : List.take 5 (List.drop j lit) = List.drop j lit :=
      List.take_of_length_le (by rw [hdj]; omega)
    have hjl : j - lit.length = 0 := by omega
    rw [ht5, hjl, List.drop_zero] at hwin
    have htk : List.take (5 - (List.drop j lit).length) (startSeq ++ r) =
        List.take (5 - (lit.length - j)) startSeq := by
      rw [hdj, List.take_append_eq_append_take]
      have hz : 5 - (lit.length - j) - startSeq.length = 0 := by
        rw [hs5]; omega
      rw [hz, List.take_zero, List.append_nil]
    rw [htk] at hwin
    -- hwin : lit.drop j ++ startSeq.take (5 - k) = startSeq; split startSeq
    have hwin2 : List.drop j lit ++ List.take (5 - (lit.length - j)) startSeq =
        List.take (lit.length - j) startSeq ++ List.drop (lit.length - j) startSeq := by
      rw [List.take_append_drop]
      exact hwin
    have hlens : (List.drop j lit).length =
        (List.take (lit.length - j) startSeq).length := by
      rw [hdj, List.length_take, hs5]
      omega
    have hov := (List.append_inj hwin2 hlens).2
    exact startSeq_no_self_overlap (lit.length - j) hk2 hk1 hov

/-- A literal run containing no occurrence of `<?lua` and sitting at the end
of the document never triggers `isStart`. -/
theorem noOpen_final (lit : List Nat) (h : noOpenOcc lit) :
    ∀ j < lit.length, isStart j lit = false := by
  intro j hj
  by_contra hs
  rw [Bool.not_eq_false, isStart_iff] at hs
  exact h j hj hs.2

/-- A script run containing no occurrence of `?>` and followed by the close
marker never triggers `isEnd` early: an occurrence inside is excluded by
hypothesis, and at the boundary the byte after the run is `?`, not `>`. -/
theorem noClose_context (scr r : List Nat) (h : noCloseOcc scr) :
    ∀ j < scr.length, isEnd j (scr ++ closeSeq ++ r) = false := by
  intro j hj
  by_contra hs
  rw [Bool.not_eq_false, isEnd_iff] at hs
  obtain ⟨hlen, hwin⟩ := hs
  rw [List.append_assoc, List.drop_append_eq_append_drop,
    List.take_append_eq_append_take] at hwin
  by_cases hcase : j + 2 ≤ scr.length
  · -- the window lies inside `scr`: a forbidden occurrence
    have hz : 2 - (List.drop j scr).length = 0 := by
      simp only [List.length_drop]; omega
    rw [hz, List.take_zero, List.append_nil] at hwin
    exact h j hj hwin
  · -- the window straddles the boundary: scr supplies exactly its last byte
    push_neg at hcase
    have hdj : (List.drop j scr).length = 1 := by
      simp only [List.length_drop]; omega
    have ht2 : List.take 2 (List.drop j scr) = List.drop j scr :=
      List.take_of_length_le (by rw [hdj]; omega)
    have hjl : j - scr.length = 0 := by omega
    rw [ht2, hjl, List.drop_zero] at hwin
    have htk : List.take (2 - (List.drop j scr).length) (closeSeq ++ r) = [63] := by
      rw [hdj]
      rfl
    rw [htk] at hwin
    -- (scr.drop j) ++ [63] = [63, 62] forces 63 = 62
    have h63 : closeSeq = [63] ++ [62] := rfl
    rw [h63] at hwin
    have hbad := (List.append_inj hwin (by rw [hdj]; rfl)).2
    simp at hbad

/-- A script run containing no occurrence of `?>` and sitting at the end of
the document never triggers `isEnd`. -/
theorem noClose_final (scr : List Nat) (h : noCloseOcc scr) :
    ∀ j < scr.length, isEnd j scr = false := by
  intro j hj
  by_contra hs
  rw [Bool.not_eq_false, isEnd_iff] at hs
  exact h j hj hs.2

/-- When `isEnd` fires at the head, the two leading bytes are `?` and `>`. -/
theorem isEnd_shape (b : Nat) (rest : List Nat)
    (hend : isEnd 0 (b :: rest) = true) : b = 63 ∧ rest = 62 :: rest.tail := by
  obtain ⟨hl, hw⟩ := (isEnd_iff 0 (b :: rest)).mp hend
  rw [List.drop_zero] at hw
  cases rest with
  | nil => simp at hl
  | cons c rest' =>
    simp only [List.take_succ_cons, List.take_zero, closeSeq,
      List.cons.injEq, and_true] at hw
    exact ⟨hw.1, by simp [hw.2]⟩

/-- When `isStart` fires at the head, the five leading bytes are `<?lua`. -/
theorem isStart_shape (b : Nat) (rest : List Nat)
    (hstart : isStart 0 (b :: rest) = true) :
    b = 60 ∧ rest.take 4 = [63, 108, 117, 97] := by
  obtain ⟨hl, hw⟩ := (isStart_iff 0 (b :: rest)).mp hstart
  rw [List.drop_zero, List.take_succ_cons] at hw
  simp only [startSeq, List.cons.injEq] at hw
  exact ⟨hw.1, hw.2⟩

/-- Successful dispatch whose continuation also succeeds. -/
theorem interpLoop_dispatch_ok_ok (exec : List Nat → ExecResult) {σ : Type}
    (W : Sink σ) (b : Nat) (rest : List Nat) (line : Nat)
    (luaIn luaOut : List Nat) (out o : σ) (tr : List (List Nat)) (ln : Nat)
    (hend : isEnd 0 (b :: rest) = true)
    (he : (exec luaIn).err = none)
    (hrec : interpLoop exec W rest.tail false line [] []
      (W.write out (runPrints (exec luaIn).prints luaOut)).1 = (o, .ok (tr, ln))) :
    interpLoop exec W (b :: rest) true line luaIn luaOut out =
      (o, .ok (luaIn :: tr, ln)) := by
  rw [interpLoop_dispatch_ok exec W b rest line luaIn luaOut out hend he]
  simp only [hrec]

/-- Successful dispatch whose continuation fails. -/
theorem interpLoop_dispatch_ok_err (exec : List Nat → ExecResult) {σ : Type}
    (W : Sink σ) (b : Nat) (rest : List Nat) (line : Nat)
    (luaIn luaOut : List Nat) (out o : σ) (e : InterpError)
    (hend : isEnd 0 (b :: rest) = true)
    (he : (exec luaIn).err = none)
    (hrec : interpLoop exec W rest.tail false line [] []
      (W.write out (runPrints (exec luaIn).prints luaOut)).1 = (o, .error e)) :
    interpLoop exec W (b :: rest) true line luaIn luaOut out = (o, .error e) := by
  rw [interpLoop_dispatch_ok exec W b rest line luaIn luaOut out hend he]
  simp only [hrec]

/-- Whenever the scan completes without error, the final line counter is the
starting value plus the number of newline bytes of the remaining input: the
counter is bumped exactly once per newline byte, in both modes, and the
bytes skipped over as marker bytes are never newlines. -/
theorem interpLoop_ok_line (exec : List Nat → ExecResult) {σ : Type} (W : Sink σ) :
    ∀ (n : Nat) (src : List Nat), src.length = n →
      ∀ (inCode : Bool) (line : Nat) (luaIn luaOut : List Nat) (out o : σ)
        (tr : List (List Nat)) (ln : Nat),
      interpLoop exec W src inCode line luaIn luaOut out = (o, .ok (tr, ln)) →
      ln = line + countNl src := by
  intro n
  induction n using Nat.strong_induction_on with
  | _ n ih =>
    intro src hn inCode line luaIn luaOut out o tr ln hres
    cases src with
    | nil =>
      rw [interpLoop_nil] at hres
      split at hres
      · split at hres
        · simp at hres
        · simp only [Prod.mk.injEq, Except.ok.injEq] at hres
          simp [countNl, ← hres.2.2]
      · simp only [Prod.mk.injEq, Except.ok.injEq] at hres
        simp [countNl, ← hres.2.2]
    | cons b rest =>
      cases inCode with
      | true =>
        by_cases hend : isEnd 0 (b :: rest) = true
        · obtain ⟨hb, hrest⟩ := isEnd_shape b rest hend
          cases he : (exec luaIn).err with
          | some msg =>
            rw [interpLoop_dispatch_err exec W b rest line luaIn luaOut out msg
              hend he] at hres
            simp at hres
          | none =>
            rcases hrec : interpLoop exec W rest.tail false line [] []
                (W.write out (runPrints (exec luaIn).prints luaOut)).1 with ⟨o', res⟩
            cases res with
            | error e =>
              rw [interpLoop_dispatch_ok_err exec W b rest line luaIn luaOut out o'
                e hend he hrec] at hres
              simp at hres
            | ok p =>
              rcases p with ⟨tr', ln'⟩
              rw [interpLoop_dispatch_ok_ok exec W b rest line luaIn luaOut out o'
                tr' ln' hend he hrec] at hres
              simp only [Prod.mk.injEq, Except.ok.injEq] at hres
              have hln : ln = ln' := hres.2.2.symm
              have hlen : rest.tail.length < n := by
                subst hn
                simp only [List.length_tail, List.length_cons]
                omega
              have := ih rest.tail.length hlen rest.tail rfl false line [] [] _
                o' tr' ln' hrec
              rw [hln, this]
              have hcnt : countNl (b :: rest) = countNl rest.tail := by
                rw [hb, hrest, countNl_cons, countNl_cons]
                simp [nl]
              rw [hcnt]
        · rw [Bool.not_eq_true] at hend
          rw [interpLoop_script_byte exec W b rest line luaIn luaOut out hend]
            at hres
          have hlen : rest.length < n := by
            subst hn; simp only [List.length_cons]; omega
          have := ih rest.length hlen rest rfl true _ (luaIn ++ [b]) luaOut out
            o tr ln hres
          rw [this, countNl_cons]
          by_cases hbnl : b = nl <;> simp [hbnl] <;> omega
      | false =>
        by_cases hstart : isStart 0 (b :: rest) = true
        · obtain ⟨hb, htake⟩ := isStart_shape b rest hstart
          rw [interpLoop_open exec W b rest line luaIn luaOut out hstart] at hres
          have hlen : (rest.drop 4).length < n := by
            subst hn; simp only [List.length_drop, List.length_cons]; omega
          have := ih (rest.drop 4).length hlen (rest.drop 4) rfl true line luaIn
            luaOut out o tr ln hres
          rw [this]
          have hcnt : countNl (b :: rest) = countNl (rest.drop 4) := by
            rw [countNl_cons, hb]
            have hsplit : countNl rest = countNl (rest.take 4) + countNl (rest.drop 4) := by
              rw [← countNl_append, List.take_append_drop]
            rw [hsplit, htake]
            simp [countNl, nl, List.count_cons]
          rw [hcnt]
        · rw [Bool.not_eq_true] at hstart
          rcases hw : W.write out [b] with ⟨o2, e⟩
          cases e with
          | some err =>
            rw [interpLoop_write_fail exec W b rest line luaIn luaOut out o2 err
              hstart hw] at hres
            simp at hres
          | none =>
            rw [interpLoop_lit_step exec W b rest line luaIn luaOut out o2
              hstart hw] at hres
            have hlen : rest.length < n := by
              subst hn; simp only [List.length_cons]; omega
            have := ih rest.length hlen rest rfl false _ luaIn luaOut o2
              o tr ln hres
            rw [this, countNl_cons]
            by_cases hbnl : b = nl <;> simp [hbnl] <;> omega

/-- One document region: a literal run followed by one delimited script. -/
structure Seg where
  lit : List Nat
  scr : List Nat
deriving DecidableEq

/-- Assembling a document from delimited regions and a final literal run:
`lit₀ <?lua scr₀ ?> lit₁ <?lua scr₁ ?> … fin`. -/
def assemble : List Seg → List Nat → List Nat
  | [], fin => fin
  | s :: rest, fin =>
    s.lit ++ startSeq ++ s.scr ++ closeSeq ++ assemble rest fin

/-- Well-formedness of a region under a given interpreter oracle: the
literal run contains no open marker, the script contains no close marker
(so the scanner's region boundaries are the intended ones), and the chunk
executes without error. -/
def SegOK (exec : List Nat → ExecResult) (s : Seg) : Prop :=
  noOpenOcc s.lit ∧ noCloseOcc s.scr ∧ (exec s.scr).err = none

/-- Rendering of one region: its literal run followed by the output the
chunk's print calls produce from an empty buffer. -/
def renderSeg (exec : List Nat → ExecResult) (s : Seg) : List Nat :=
  s.lit ++ printsBytes (exec s.scr).prints

/-- Rendering of a whole document: each region rendered in order, then the
final literal run. -/
def render (exec : List Nat → ExecResult) (segs : List Seg) (fin : List Nat) :
    List Nat :=
  (segs.map (renderSeg exec)).flatten ++ fin

/-- Neither marker contains a newline byte. -/
theorem countNl_startSeq : countNl startSeq = 0 := by decide

theorem countNl_closeSeq : countNl closeSeq = 0 := by decide

/-- Scanning one whole region whose script fails: the literal run is copied,
the chunk is dispatched at the close marker, and the scan aborts with the
wrapped interpreter error at the line of the close marker. -/
theorem interpLoop_region_err (exec : List Nat → ExecResult)
    (lt sc tail : List Nat) (line : Nat) (out : List Nat) (msg : String)
    (hlit : noOpenOcc lt) (hscr : noCloseOcc sc)
    (he : (exec sc).err = some msg) :
    interpLoop exec listSink (lt ++ startSeq ++ sc ++ closeSeq ++ tail)
        false line [] [] out =
      (out ++ lt, .error (.luaErr (line + countNl lt + countNl sc) msg)) := by
  have hcopy := interpLoop_copy_run exec lt (startSeq ++ sc ++ closeSeq ++ tail)
    line [] [] out (by
      intro j hj
      have := noOpen_context lt (sc ++ closeSeq ++ tail) hlit j hj
      simpa [List.append_assoc] using this)
  rw [show lt ++ startSeq ++ sc ++ closeSeq ++ tail =
    lt ++ (startSeq ++ sc ++ closeSeq ++ tail) by simp [List.append_assoc]]
  rw [hcopy]
  have hstart : isStart 0 (startSeq ++ (sc ++ closeSeq ++ tail)) = true := by
    rw [isStart_iff]
    constructor
    · simp only [List.length_append, closeSeq, startSeq]
      simp only [List.length_cons, List.length_nil]
      omega
    · rw [List.drop_zero, List.take_append_eq_append_take]
      simp [startSeq]
  rw [show startSeq ++ sc ++ closeSeq ++ tail =
    60 :: ([63, 108, 117, 97] ++ (sc ++ closeSeq ++ tail)) by
      simp [startSeq, List.append_assoc]]
  rw [interpLoop_open exec listSink 60 ([63, 108, 117, 97] ++ (sc ++ closeSeq ++ tail))
    (line + countNl lt) [] [] (out ++ lt) (by
      have : (60 : Nat) :: ([63, 108, 117, 97] ++ (sc ++ closeSeq ++ tail)) =
          startSeq ++ (sc ++ closeSeq ++ tail) := by
        simp [startSeq, List.append_assoc]
      rw [this]
      exact hstart)]
  rw [show List.drop 4 ([63, 108, 117, 97] ++ (sc ++ closeSeq ++ tail)) =
    sc ++ (closeSeq ++ tail) by simp [List.append_assoc]]
  have hscan := interpLoop_script_run exec listSink sc (closeSeq ++ tail)
    (line + countNl lt) [] [] (out ++ lt) (by
      intro j hj
      have := noClose_context sc tail hscr j hj
      simpa [List.append_assoc] using this)
  rw [hscan]
  rw [show closeSeq ++ tail = 63 :: (62 :: tail) by simp [closeSeq]]
  rw [interpLoop_dispatch_err exec listSink 63 (62 :: tail)
    (line + countNl lt + countNl sc) ([] ++ sc) [] (out ++ lt) msg (by
      rw [isEnd_iff]
      refine ⟨by simp, ?_⟩
      rfl) (by simpa using he)]

/-- Scanning one whole region whose script succeeds: the literal run is
copied, the chunk is dispatched at the close marker, its captured output is
flushed, and the scan continues after the close marker in Literal mode with
both buffers empty.  Stated conditionally on the continuation's result. -/
theorem interpLoop_region_ok_ok (exec : List Nat → ExecResult)
    (lt sc tail : List Nat) (line : Nat) (out o : List Nat)
    (tr : List (List Nat)) (ln : Nat)
    (hlit : noOpenOcc lt) (hscr : noCloseOcc sc)
    (he : (exec sc).err = none)
    (hrec : interpLoop exec listSink tail false (line + countNl lt + countNl sc)
      [] [] (out ++ lt ++ printsBytes (exec sc).prints) = (o, .ok (tr, ln))) :
    interpLoop exec listSink (lt ++ startSeq ++ sc ++ closeSeq ++ tail)
        false line [] [] out = (o, .ok (sc :: tr, ln)) := by
  have hcopy := interpLoop_copy_run exec lt (startSeq ++ sc ++ closeSeq ++ tail)
    line [] [] out (by
      intro j hj
      have := noOpen_context lt (sc ++ closeSeq ++ tail) hlit j hj
      simpa [List.append_assoc] using this)
  rw [show lt ++ startSeq ++ sc ++ closeSeq ++ tail =
    lt ++ (startSeq ++ sc ++ closeSeq ++ tail) by simp [List.append_assoc]]
  rw [hcopy]
  have hstart : isStart 0 (startSeq ++ (sc ++ closeSeq ++ tail)) = true := by
    rw [isStart_iff]
    constructor
    · simp only [List.length_append, closeSeq, startSeq]
      simp only [List.length_cons, List.length_nil]
      omega
    · rw [List.drop_zero, List.take_append_eq_append_take]
      simp [startSeq]
  rw [show startSeq ++ sc ++ closeSeq ++ tail =
    60 :: ([63, 108, 117, 97] ++ (sc ++ closeSeq ++ tail)) by
      simp [startSeq, List.append_assoc]]
  rw [interpLoop_open exec listSink 60 ([63, 108, 117, 97] ++ (sc ++ closeSeq ++ tail))
    (line + countNl lt) [] [] (out ++ lt) (by
      have : (60 : Nat) :: ([63, 108, 117, 97] ++ (sc ++ closeSeq ++ tail)) =
          startSeq ++ (sc ++ closeSeq ++ tail) := by
        simp [startSeq, List.append_assoc]
      rw [this]
      exact hstart)]
  rw [show List.drop 4 ([63, 108, 117, 97] ++ (sc ++ closeSeq ++ tail)) =
    sc ++ (closeSeq ++ tail) by simp [List.append_assoc]]
  have hscan := interpLoop_script_run exec listSink sc (closeSeq ++ tail)
    (line + countNl lt) [] [] (out ++ lt) (by
      intro j hj
      have := noClose_context sc tail hscr j hj
      simpa [List.append_assoc] using this)
  rw [hscan]
  rw [show closeSeq ++ tail = 63 :: (62 :: tail) by simp [closeSeq]]
  have hend : isEnd 0 ((63 : Nat) :: (62 :: tail)) = true := by
    rw [isEnd_iff]
    refine ⟨by simp, ?_⟩
    rfl
  have := interpLoop_dispatch_ok_ok exec listSink 63 (62 :: tail)
    (line + countNl lt + countNl sc) ([] ++ sc) [] (out ++ lt) o tr ln hend
    (by simpa using he) (by
      simp only [List.nil_append, List.tail_cons]
      have hw : (listSink.write (out ++ lt) (runPrints (exec sc).prints [])).1 =
          out ++ lt ++ printsBytes (exec sc).prints := by
        simp [listSink, printsBytes]
      rw [hw]
      exact hrec)
  simpa using this

/-- As `interpLoop_region_ok_ok`, but the continuation fails. -/
theorem interpLoop_region_ok_err (exec : List Nat → ExecResult)
    (lt sc tail : List Nat) (line : Nat) (out o : List Nat) (e : InterpError)
    (hlit : noOpenOcc lt) (hscr : noCloseOcc sc)
    (he : (exec sc).err = none)
    (hrec : interpLoop exec listSink tail false (line + countNl lt + countNl sc)
      [] [] (out ++ lt ++ printsBytes (exec sc).prints) = (o, .error e)) :
    interpLoop exec listSink (lt ++ startSeq ++ sc ++ closeSeq ++ tail)
        false line [] [] out = (o, .error e) := by
  have hcopy := interpLoop_copy_run exec lt (startSeq ++ sc ++ closeSeq ++ tail)
    line [] [] out (by
      intro j hj
      have := noOpen_context lt (sc ++ closeSeq ++ tail) hlit j hj
      simpa [List.append_assoc] using this)
  rw [show lt ++ startSeq ++ sc ++ closeSeq ++ tail =
    lt ++ (startSeq ++ sc ++ closeSeq ++ tail) by simp [List.append_assoc]]
  rw [hcopy]
  have hstart : isStart 0 (startSeq ++ (sc ++ closeSeq ++ tail)) = true := by
    rw [isStart_iff]
    constructor
    · simp only [List.length_append, closeSeq, startSeq]
      simp only [List.length_cons, List.length_nil]
      omega
    · rw [List.drop_zero, List.take_append_eq_append_take]
      simp [startSeq]
  rw [show startSeq ++ sc ++ closeSeq ++ tail =
    60 :: ([63, 108, 117, 97] ++ (sc ++ closeSeq ++ tail)) by
      simp [startSeq, List.append_assoc]]
  rw [interpLoop_open exec listSink 60 ([63, 108, 117, 97] ++ (sc ++ closeSeq ++ tail))
    (line + countNl lt) [] [] (out ++ lt) (by
      have : (60 : Nat) :: ([63, 108, 117, 97] ++ (sc ++ closeSeq ++ tail)) =
          startSeq ++ (sc ++ closeSeq ++ tail) := by
        simp [startSeq, List.append_assoc]
      rw [this]
      exact hstart)]
  rw [show List.drop 4 ([63, 108, 117, 97] ++ (sc ++ closeSeq ++ tail)) =
    sc ++ (closeSeq ++ tail) by simp [List.append_assoc]]
  have hscan := interpLoop_script_run exec listSink sc (closeSeq ++ tail)
    (line + countNl lt) [] [] (out ++ lt) (by
      intro j hj
      have := noClose_context sc tail hscr j hj
      simpa [List.append_assoc] using this)
  rw [hscan]
  rw [show closeSeq ++ tail = 63 :: (62 :: tail) by simp [closeSeq]]
  have hend : isEnd 0 ((63 : Nat) :: (62 :: tail)) = true := by
    rw [isEnd_iff]
    refine ⟨by simp, ?_⟩
    rfl
  have := interpLoop_dispatch_ok_err exec listSink 63 (62 :: tail)
    (line + countNl lt + countNl sc) ([] ++ sc) [] (out ++ lt) o e hend
    (by simpa using he) (by
      simp only [List.nil_append, List.tail_cons]
      have hw : (listSink.write (out ++ lt) (runPrints (exec sc).prints [])).1 =
          out ++ lt ++ printsBytes (exec sc).prints := by
        simp [listSink, printsBytes]
      rw [hw]
      exact hrec)
  simpa using this

/-- Newline count of an assembled document, region by region. -/
theorem countNl_assemble (s : Seg) (segs : List Seg) (fin : List Nat) :
    countNl (assemble (s :: segs) fin) =
      countNl s.lit + countNl s.scr + countNl (assemble segs fin) := by
  simp only [assemble, countNl_append, countNl_startSeq, countNl_closeSeq]
  omega

/-- Full characterization of a successful scan of an assembled document over
the in-memory sink: the output is the regions rendered in order, the
dispatched chunks are exactly the scripts in document order, and the final
line counter counts every newline of the document. -/
theorem interpLoop_assemble (exec : List Nat → ExecResult) (segs : List Seg) :
    ∀ (fin : List Nat) (line : Nat) (out : List Nat),
      (∀ s ∈ segs, SegOK exec s) → noOpenOcc fin →
      interpLoop exec listSink (assemble segs fin) false line [] [] out =
        (out ++ render exec segs fin,
         .ok (segs.map Seg.scr, line + countNl (assemble segs fin))) := by
  induction segs with
  | nil =>
    intro fin line out _ hfin
    have hcopy := interpLoop_copy_run exec fin [] line [] [] out (by
      intro j hj
      have := noOpen_final fin hfin j hj
      simpa using this)
    simp only [assemble]
    rw [show fin = fin ++ [] by simp, hcopy, interpLoop_nil]
    simp [render]
  | cons s segs ih =>
    intro fin line out hok hfin
    obtain ⟨h1, h2, h3⟩ := hok s (List.mem_cons_self s segs)
    have hrec := ih fin (line + countNl s.lit + countNl s.scr)
      (out ++ s.lit ++ printsBytes (exec s.scr).prints)
      (fun t ht => hok t (List.mem_cons_of_mem s ht)) hfin
    simp only [assemble]
    rw [interpLoop_region_ok_ok exec s.lit s.scr (assemble segs fin) line out _
      (segs.map Seg.scr) _ h1 h2 h3 hrec]
    have hout : out ++ s.lit ++ printsBytes (exec s.scr).prints ++
        render exec segs fin = out ++ render exec (s :: segs) fin := by
      simp [render, renderSeg, List.append_assoc]
    have hline : line + countNl s.lit + countNl s.scr +
        countNl (assemble segs fin) =
        line + countNl (s.lit ++ startSeq ++ s.scr ++ closeSeq ++
          assemble segs fin) := by
      have hc := countNl_assemble s segs fin
      simp only [assemble] at hc
      omega
    rw [hout, hline]
    simp

/-- Scanning an assembled document whose last region fails after a prefix of
successful regions: the sink keeps everything rendered before the failing
region plus the failing region's literal run, and the scan aborts with the
interpreter error at the failing region's close marker. -/
theorem interpLoop_assemble_err (exec : List Nat → ExecResult) (segs : List Seg) :
    ∀ (lt sc tail : List Nat) (line : Nat) (out : List Nat) (msg : String),
      (∀ s ∈ segs, SegOK exec s) → noOpenOcc lt → noCloseOcc sc →
      (exec sc).err = some msg →
      interpLoop exec listSink
          (assemble segs (lt ++ startSeq ++ sc ++ closeSeq ++ tail))
          false line [] [] out =
        (out ++ (segs.map (renderSeg exec)).flatten ++ lt,
         .error (.luaErr
           (line + countNl (assemble segs []) + countNl lt + countNl sc) msg)) := by
  induction segs with
  | nil =>
    intro lt sc tail line out msg _ hlit hscr he
    simp only [assemble]
    rw [interpLoop_region_err exec lt sc tail line out msg hlit hscr he]
    simp [countNl, nl]
  | cons s segs ih =>
    intro lt sc tail line out msg hok hlit hscr he
    obtain ⟨h1, h2, h3⟩ := hok s (List.mem_cons_self s segs)
    have hrec := ih lt sc tail (line + countNl s.lit + countNl s.scr)
      (out ++ s.lit ++ printsBytes (exec s.scr).prints) msg
      (fun t ht => hok t (List.mem_cons_of_mem s ht)) hlit hscr he
    simp only [assemble]
    rw [interpLoop_region_ok_err exec s.lit s.scr _ line out _ _ h1 h2 h3 hrec]
    have hout : out ++ s.lit ++ printsBytes (exec s.scr).prints ++
        (segs.map (renderSeg exec)).flatten ++ lt =
        out ++ ((s :: segs).map (renderSeg exec)).flatten ++ lt := by
      simp [renderSeg, List.append_assoc]
    have hline : line + countNl s.lit + countNl s.scr +
        countNl (assemble segs []) + countNl lt + countNl sc =
        line + countNl (s.lit ++ startSeq ++ s.scr ++ closeSeq ++
          assemble segs []) + countNl lt + countNl sc := by
      simp only [countNl_append, countNl_startSeq, countNl_closeSeq]
      omega
    rw [hout, hline]

-- equality is decidable on the model's result type
deriving instance DecidableEq for Except

/-- Modelled from the spec: the behaviour of the embedded Lua interpreter
(the external `gopher-lua` library, an external collaborator per the spec,
not code of this repository) on exactly the script chunks appearing in the
spec's concrete scenarios — `print` of a string or number produces one call
to the registered print binding with the textual representation of its
argument, and `error("boom")` fails with an interpreter message containing
`boom` and no print output.  All other chunks are taken to succeed silently. -/
def luaModel (script : List Nat) : ExecResult :=
  if script = strBytes " print(\"World\") " then ⟨[["World"]], none⟩
  else if script = strBytes " print(1) " then ⟨[["1"]], none⟩
  else if script = strBytes " print(2) " then ⟨[["2"]], none⟩
  else if script = strBytes " error(\"boom\") " then
    ⟨[], some "<string>:1: boom"⟩
  else if script = strBytes " error(\"boom\")\n" then
    ⟨[], some "<string>:1: boom"⟩
  else ⟨[], none⟩

/-- Modelled from the spec: an interpreter oracle for chunks whose execution
succeeds without printing anything. -/
def okExec : List Nat → ExecResult := fun _ => ⟨[], none⟩

/-- Modelled from the spec: an interpreter oracle for chunks whose execution
succeeds after one print call with the single argument `x`. -/
def onePrintExec : List Nat → ExecResult := fun _ => ⟨[["x"]], none⟩

instance (exec : List Nat → ExecResult) (s : Seg) : Decidable (SegOK exec s) := by
  unfold SegOK; infer_instance

/-- First region of the spec's two-region scenario. -/
def seg1 : Seg := ⟨[], strBytes " print(1) "⟩

/-- Second region of the spec's two-region scenario. -/
def seg2 : Seg := ⟨strBytes "-", strBytes " print(2) "⟩

/-- The single region of the spec's `Hello World` scenario. -/
def segHello : Seg := ⟨strBytes "Hello ", strBytes " print(\"World\") "⟩

/-- Claim C1: for every interpreter oracle and every document assembled from
literal runs (no stray open marker) and delimited script regions (no stray
close marker) whose chunks all execute successfully, the destination sink
ends up containing exactly the document's literal bytes with every
open-marker-to-close-marker region replaced by the output printed during
that region's execution, and `Interpret` returns success. -/
theorem claim_C1 (exec : List Nat → ExecResult) (segs : List Seg)
    (fin : List Nat)
    (hok : ∀ s ∈ segs, SegOK exec s) (hfin : noOpenOcc fin) :
    ∃ tr ln, Interpret exec listSink [] (assemble segs fin) =
      (render exec segs fin, Except.ok (tr, ln)) := by
  refine ⟨segs.map Seg.scr, 1 + countNl (assemble segs fin), ?_⟩
  have h := interpLoop_assemble exec segs fin 1 [] hok hfin
  simpa [Interpret] using h

/-- Witness for C1 at the spec's concrete scenario: the assembled document
is literally `Hello <?lua print("World") ?>!` and the sink receives
`Hello World\n!`. -/
theorem claim_C1_witness :
    assemble [segHello] (strBytes "!") =
        strBytes "Hello <?lua print(\"World\") ?>!" ∧
    ∃ tr ln, Interpret luaModel listSink [] (assemble [segHello] (strBytes "!")) =
      (strBytes "Hello World\n!", Except.ok (tr, ln)) := by
  constructor
  · decide
  · have h := claim_C1 luaModel [segHello] (strBytes "!")
      (by decide) (by decide)
    have hr : render luaModel [segHello] (strBytes "!") =
        strBytes "Hello World\n!" := by decide
    rwa [hr] at h

/-- Claim C2: a document containing no occurrence of the open marker is
copied to the destination sink byte for byte (identity), `Interpret`
succeeds, and no chunk is ever dispatched to the interpreter. -/
theorem claim_C2 (exec : List Nat → ExecResult) (src : List Nat)
    (h : noOpenOcc src) :
    Interpret exec listSink [] src =
      (src, Except.ok ([], 1 + countNl src)) := by
  have hcopy := interpLoop_copy_run exec src [] 1 [] [] [] (by
    intro j hj
    have := noOpen_final src h j hj
    simpa using this)
  have hstep : Interpret exec listSink [] src =
      interpLoop exec listSink (src ++ []) false 1 [] [] [] := by
    simp [Interpret]
  rw [hstep, hcopy, interpLoop_nil]
  simp

/-- Witness for C2: a marker-free document round-trips unchanged. -/
theorem claim_C2_witness :
    Interpret okExec listSink [] (strBytes "No markers here.\n") =
      (strBytes "No markers here.\n", Except.ok ([], 2)) := by
  have h := claim_C2 okExec (strBytes "No markers here.\n") (by decide)
  have hc : 1 + countNl (strBytes "No markers here.\n") = 2 := by decide
  rwa [hc] at h

/-- Claim C4: on a document with N well-formed script regions, exactly N
chunks are dispatched to the interpreter, in left-to-right document order
(the returned dispatch trace is exactly the list of region scripts), and the
sink content interleaves each region's literal prefix with that region's own
captured output in order — the output buffer is flushed and reset between
dispatches, so no region's output bleeds into another's. -/
theorem claim_C4 (exec : List Nat → ExecResult) (segs : List Seg)
    (fin : List Nat)
    (hok : ∀ s ∈ segs, SegOK exec s) (hfin : noOpenOcc fin) :
    (Interpret exec listSink [] (assemble segs fin)).2 =
        Except.ok (segs.map Seg.scr, 1 + countNl (assemble segs fin)) ∧
      (Interpret exec listSink [] (assemble segs fin)).1 =
        render exec segs fin := by
  have h := interpLoop_assemble exec segs fin 1 [] hok hfin
  constructor
  · simp [Interpret, h]
  · simp [Interpret, h]

/-- Witness for C4 at the spec's two-region scenario
`<?lua print(1) ?>-<?lua print(2) ?>`: two dispatches, in order, and output
`1\n-2\n`. -/
theorem claim_C4_witness :
    assemble [seg1, seg2] [] = strBytes "<?lua print(1) ?>-<?lua print(2) ?>" ∧
    (Interpret luaModel listSink [] (assemble [seg1, seg2] [])).2 =
      Except.ok ([strBytes " print(1) ", strBytes " print(2) "], 1) ∧
    (Interpret luaModel listSink [] (assemble [seg1, seg2] [])).1 =
      strBytes "1\n-2\n" := by
  have h := claim_C4 luaModel [seg1, seg2] [] (by decide) (by decide)
  obtain ⟨h1, h2⟩ := h
  refine ⟨by decide, ?_, ?_⟩
  · have hm : List.map Seg.scr [seg1, seg2] =
        [strBytes " print(1) ", strBytes " print(2) "] := by decide
    have hc : 1 + countNl (assemble [seg1, seg2] []) = 1 := by decide
    rwa [hm, hc] at h1
  · have hr : render luaModel [seg1, seg2] [] = strBytes "1\n-2\n" := by decide
    rwa [hr] at h2

/-- Claim C7 (counterexample): at offset 0 of the 5-byte document `<?lua`
itself, the open-marker byte sequence matches entirely within the document's
bounds, yet `isStart` returns false: the code's bound `start+5 >= len(slice)`
additionally demands a byte after the marker. -/
theorem claim_C7_counterexample :
    (startSeq.drop 0).take 5 = startSeq ∧ 0 + 5 ≤ startSeq.length ∧
      isStart 0 startSeq = false := by decide

/-- Claim C7 as amended: `isStart pos doc` returns true if and only if the
5-byte open-marker sequence matches at `pos` and at least one further byte
follows it inside the document (`pos + 5 < doc.length`, strictly); in
particular a match that would overrun the document, and even a match ending
exactly at the document's end, returns false. -/
theorem claim_C7_amended (pos : Nat) (doc : List Nat) :
    isStart pos doc = true ↔
      (doc.drop pos).take 5 = startSeq ∧ pos + 5 < doc.length := by
  rw [isStart_iff]
  tauto

/-- Helper for C8: the source's print-argument loop produces exactly the
arguments' byte strings joined by single spaces. -/
theorem printArgs_intercalate (args : List String) :
    printArgsBytes args = List.intercalate (strBytes " ") (args.map strBytes) := by
  induction args with
  | nil => simp [printArgsBytes, List.intercalate]
  | cons a rest ih =>
    cases rest with
    | nil => simp [printArgsBytes, List.intercalate]
    | cons b rest' =>
      rw [printArgsBytes, ih]
      simp [List.intercalate, List.intersperse_cons_cons, List.append_assoc]

/-- Helper for C8: the script output buffer is append-only across the print
calls of one execution. -/
theorem runPrints_append_only (ps : List (List String)) :
    ∀ buf : List Nat, runPrints ps buf = buf ++ printsBytes ps := by
  induction ps with
  | nil => intro buf; simp [runPrints, printsBytes]
  | cons p ps ih =>
    intro buf
    have h1 : runPrints (p :: ps) buf = runPrints ps (printBinding p buf).1 := rfl
    have h2 : printsBytes (p :: ps) = runPrints ps (printBinding p []).1 := rfl
    rw [h1, h2, ih, ih]
    simp [printBinding, List.append_assoc]

/-- Claim C8: each call of the script-visible print binding appends to the
script output buffer the textual representations of its arguments separated
by exactly one space each followed by exactly one newline, returns no value
to the script, and only ever appends — across multiple calls within one
execution the buffer is append-only. -/
theorem claim_C8 :
    (∀ (args : List String) (buf : List Nat),
       printBinding args buf =
         (buf ++ List.intercalate (strBytes " ") (args.map strBytes) ++
            strBytes "\n", [])) ∧
    (∀ (ps : List (List String)) (buf : List Nat),
       runPrints ps buf = buf ++ printsBytes ps) := by
  constructor
  · intro args buf
    unfold printBinding
    rw [printArgs_intercalate, List.append_assoc]
  · intro ps buf
    exact runPrints_append_only ps buf

/-- Claim C3: when every region before some script region succeeds and that
region's execution fails, `Interpret` aborts immediately (the bytes after
the failing region are arbitrary and absent from the result), returns the
wrapped interpreter error carrying a 1-based document line number and the
interpreter's message, and the destination sink retains exactly what was
written before the failing region — at-least-the-prefix, not
all-or-nothing. -/
theorem claim_C3 (exec : List Nat → ExecResult) (segs : List Seg)
    (lt sc tail : List Nat) (msg : String)
    (hok : ∀ s ∈ segs, SegOK exec s)
    (hlit : noOpenOcc lt) (hscr : noCloseOcc sc)
    (he : (exec sc).err = some msg) :
    Interpret exec listSink []
        (assemble segs (lt ++ startSeq ++ sc ++ closeSeq ++ tail)) =
      ((segs.map (renderSeg exec)).flatten ++ lt,
       Except.error (InterpError.luaErr
         (1 + countNl (assemble segs []) + countNl lt + countNl sc) msg)) := by
  have h := interpLoop_assemble_err exec segs lt sc tail 1 [] msg hok hlit hscr he
  simpa [Interpret] using h

/-- Witness for C3 at the spec's concrete scenario `<?lua error("boom") ?>`:
the failure carries line 1 and the interpreter's message, the rendered error
text contains both `Line 1` and `boom`, and the sink is left empty. -/
theorem claim_C3_witness :
    ([] ++ startSeq ++ strBytes " error(\"boom\") " ++ closeSeq ++
        ([] : List Nat)) = strBytes "<?lua error(\"boom\") ?>" ∧
    Interpret luaModel listSink []
        (assemble []
          ([] ++ startSeq ++ strBytes " error(\"boom\") " ++ closeSeq ++ [])) =
      ([], Except.error (InterpError.luaErr 1 "<string>:1: boom")) ∧
    List.IsInfix "boom".data
      (errString (InterpError.luaErr 1 "<string>:1: boom")).data ∧
    List.IsInfix "Line 1".data
      (errString (InterpError.luaErr 1 "<string>:1: boom")).data := by
  refine ⟨by decide, ?_, by decide, by decide⟩
  have h := claim_C3 luaModel [] [] (strBytes " error(\"boom\") ") []
    "<string>:1: boom" (by simp) (by decide) (by decide) (by decide)
  have hout : (List.map (renderSeg luaModel) ([] : List Seg)).flatten ++
      ([] : List Nat) = [] := rfl
  have hln : 1 + countNl (assemble ([] : List Seg) []) +
      countNl ([] : List Nat) + countNl (strBytes " error(\"boom\") ") = 1 := by
    decide
  rw [hout, hln] at h
  exact h

/-- Claim C5 (counterexample): in the document `<?lua error("boom")\n?>` the
failing statement — the region's whole script — lies on line 1 of the
document (the modelled interpreter message itself reports chunk line 1), yet
the returned error carries line 2: the reported number is the scan line at
the close marker where the chunk is dispatched, not the failing token's
line. -/
theorem claim_C5_counterexample :
    Interpret luaModel listSink [] (strBytes "<?lua error(\"boom\")\n?>") =
      ([], Except.error (InterpError.luaErr 2 "<string>:1: boom")) ∧
      (2 : Nat) ≠ 1 := by decide

/-- Claim C5 as amended: the line counter is bumped exactly once per newline
byte scanned, in both modes — on success the final counter is `1 +` the
document's newline count — and the line reported on a script failure is the
scan line at the dispatch point (the region's close marker), which is
document-relative (it counts newlines both outside and inside script
regions) but can exceed the failing token's own line. -/
theorem claim_C5_amended :
    (∀ (exec : List Nat → ExecResult) {σ : Type} (W : Sink σ)
       (src : List Nat) (s0 o : σ) (tr : List (List Nat)) (ln : Nat),
       Interpret exec W s0 src = (o, Except.ok (tr, ln)) →
       ln = 1 + countNl src) ∧
    (∀ (exec : List Nat → ExecResult) (lt sc tail : List Nat) (msg : String),
       noOpenOcc lt → noCloseOcc sc → (exec sc).err = some msg →
       Interpret exec listSink [] (lt ++ startSeq ++ sc ++ closeSeq ++ tail) =
         (lt, Except.error (InterpError.luaErr
           (1 + countNl lt + countNl sc) msg))) := by
  constructor
  · intro exec σ W src s0 o tr ln h
    exact interpLoop_ok_line exec W src.length src rfl false 1 [] [] s0 o tr ln h
  · intro exec lt sc tail msg hlit hscr he
    have h := interpLoop_region_err exec lt sc tail 1 [] msg hlit hscr he
    simpa [Interpret] using h

/-- Witness for the amended C5: a marker-free two-line document ends with
line counter 2, and a failing one-region document reports the close-marker
line. -/
theorem claim_C5_amended_witness :
    (2 : Nat) = 1 + countNl (strBytes "a\nb") ∧
    Interpret luaModel listSink []
        ([] ++ startSeq ++ strBytes " error(\"boom\") " ++ closeSeq ++ []) =
      ([], Except.error (InterpError.luaErr
        (1 + countNl ([] : List Nat) + countNl (strBytes " error(\"boom\") "))
        "<string>:1: boom")) := by
  constructor
  · exact claim_C5_amended.1 okExec listSink (strBytes "a\nb") []
      (strBytes "a\nb") [] 2 (by decide)
  · exact claim_C5_amended.2 luaModel [] (strBytes " error(\"boom\") ") []
      "<string>:1: boom" (by decide) (by decide) (by decide)

/-- Claim C6: reaching end of document while still in InScript mode is not
an error.  With a non-empty pending script buffer the pending content is
executed as one final dispatch and its captured output appended to the sink;
a document ending in a bare truncated open marker (the case in which the
pending buffer stays empty) performs no dispatch at all — the marker cannot
even be entered, because `isStart` demands a byte after it, so its bytes are
copied as literal text. -/
theorem claim_C6 :
    (∀ (exec : List Nat → ExecResult) (lt sc : List Nat),
       noOpenOcc lt → noCloseOcc sc → sc ≠ [] → (exec sc).err = none →
       Interpret exec listSink [] (lt ++ startSeq ++ sc) =
         (lt ++ printsBytes (exec sc).prints,
          Except.ok ([sc], 1 + countNl lt + countNl sc))) ∧
    (∀ (exec : List Nat → ExecResult) (lt : List Nat),
       noOpenOcc lt →
       Interpret exec listSink [] (lt ++ startSeq) =
         (lt ++ startSeq, Except.ok ([], 1 + countNl lt))) := by
  constructor
  · intro exec lt sc hlit hscr hne he
    have hstep : Interpret exec listSink [] (lt ++ startSeq ++ sc) =
        interpLoop exec listSink (lt ++ (startSeq ++ sc)) false 1 [] [] [] := by
      simp [Interpret, List.append_assoc]
    rw [hstep]
    rw [interpLoop_copy_run exec lt (startSeq ++ sc) 1 [] [] [] (by
      intro j hj
      have := noOpen_context lt sc hlit j hj
      simpa [List.append_assoc] using this)]
    have hstart : isStart 0 (startSeq ++ sc) = true := by
      rw [isStart_iff]
      constructor
      · have hpos : 0 < sc.length := List.length_pos.mpr hne
        simp only [List.length_append, startSeq]
        simp only [List.length_cons, List.length_nil]
        omega
      · rw [List.drop_zero, List.take_append_eq_append_take]
        simp [startSeq]
    rw [show startSeq ++ sc = 60 :: ([63, 108, 117, 97] ++ sc) by
      simp [startSeq]]
    rw [interpLoop_open exec listSink 60 ([63, 108, 117, 97] ++ sc)
      (1 + countNl lt) [] [] ([] ++ lt) (by
        have heq : (60 : Nat) :: ([63, 108, 117, 97] ++ sc) = startSeq ++ sc := by
          simp [startSeq]
        rw [heq]
        exact hstart)]
    rw [show List.drop 4 ([63, 108, 117, 97] ++ sc) = sc by simp]
    have hsc : sc = sc ++ [] := by simp
    rw [show interpLoop exec listSink sc true (1 + countNl lt) [] [] ([] ++ lt) =
      interpLoop exec listSink (sc ++ []) true (1 + countNl lt) [] [] ([] ++ lt) by
        rw [← hsc]]
    rw [interpLoop_script_run exec listSink sc [] (1 + countNl lt) [] [] ([] ++ lt)
      (by
        intro j hj
        have := noClose_final sc hscr j hj
        simpa using this)]
    rw [interpLoop_nil]
    simp only [List.nil_append]
    have hne2 : sc.isEmpty = false := by
      simp [List.isEmpty_iff, hne]
    rw [hne2]
    simp [he, listSink, printsBytes]
  · intro exec lt hlit
    have hstep : Interpret exec listSink [] (lt ++ startSeq) =
        interpLoop exec listSink ((lt ++ startSeq) ++ []) false 1 [] [] [] := by
      simp [Interpret]
    rw [hstep]
    rw [interpLoop_copy_run exec (lt ++ startSeq) [] 1 [] [] [] (by
      intro j hj
      rw [List.append_nil]
      by_cases hcase : j < lt.length
      · have := noOpen_context lt [] hlit j hcase
        simpa using this
      · by_contra hs
        rw [Bool.not_eq_false, isStart_iff] at hs
        have hlen := hs.1
        simp only [List.length_append, startSeq] at hlen
        simp only [List.length_cons, List.length_nil] at hlen
        omega)]
    rw [interpLoop_nil]
    simp [countNl_append, countNl_startSeq]

/-- Witness for C6: the unterminated `<?lua print(1) ` still executes its
pending content and appends `1\n`; the bare trailing `<?lua` after `x`
dispatches nothing. -/
theorem claim_C6_witness :
    Interpret luaModel listSink [] ([] ++ startSeq ++ strBytes " print(1) ") =
      (strBytes "1\n", Except.ok ([strBytes " print(1) "], 1)) ∧
    Interpret okExec listSink [] (strBytes "x" ++ startSeq) =
      (strBytes "x" ++ startSeq, Except.ok ([], 1)) := by
  constructor
  · have h := claim_C6.1 luaModel [] (strBytes " print(1) ")
      (by decide) (by decide) (by decide) (by decide)
    have h1 : ([] : List Nat) ++
        printsBytes (luaModel (strBytes " print(1) ")).prints =
        strBytes "1\n" := by decide
    have h2 : 1 + countNl ([] : List Nat) + countNl (strBytes " print(1) ") = 1 := by
      decide
    rw [h1, h2] at h
    exact h
  · have h := claim_C6.2 okExec (strBytes "x") (by decide)
    have h2 : 1 + countNl (strBytes "x") = 1 := by decide
    rwa [h2] at h

/-- Claim C9 (counterexample): with a sink whose every write fails,
`<?lua x ?>` still interprets successfully even though the flush of the
drained script output performs a write that reports an error — Go's
`out.Write(luaOut.Bytes())` discards the error, so not every sink write
failure is propagated. -/
theorem claim_C9_counterexample :
    (failSink.write []
        (printsBytes (onePrintExec (strBytes " x ")).prints)).2 =
      some "write failed" ∧
    Interpret onePrintExec failSink [] (strBytes "<?lua x ?>") =
      ([], Except.ok ([strBytes " x "], 1)) := by decide

/-- Claim C9 as amended: a failing write is propagated immediately as an
error, aborting the scan with no retry, for the byte-at-a-time copies of
literal text (first conjunct, for an arbitrary sink); the flushes of drained
script output after a dispatch, however, never consult the write's error at
all — the scan returns success whatever the flush write reports (second
conjunct, again for an arbitrary sink). -/
theorem claim_C9_amended :
    (∀ (exec : List Nat → ExecResult) {σ : Type} (W : Sink σ) (b : Nat)
       (rest : List Nat) (s s2 : σ) (e : String),
       isStart 0 (b :: rest) = false → W.write s [b] = (s2, some e) →
       Interpret exec W s (b :: rest) =
         (s2, Except.error (InterpError.writeErr e))) ∧
    (∀ (exec : List Nat → ExecResult) {σ : Type} (W : Sink σ)
       (sc : List Nat) (s : σ),
       noCloseOcc sc → (exec sc).err = none →
       Interpret exec W s (startSeq ++ sc ++ closeSeq) =
         ((W.write s (printsBytes (exec sc).prints)).1,
          Except.ok ([sc], 1 + countNl sc))) := by
  constructor
  · intro exec σ W b rest s s2 e hstart hw
    have h := interpLoop_write_fail exec W b rest 1 [] [] s s2 e hstart hw
    simpa [Interpret] using h
  · intro exec σ W sc s hscr he
    have hstart : isStart 0 (startSeq ++ (sc ++ closeSeq)) = true := by
      rw [isStart_iff]
      constructor
      · simp only [List.length_append, startSeq, closeSeq]
        simp only [List.length_cons, List.length_nil]
        omega
      · rw [List.drop_zero, List.take_append_eq_append_take]
        simp [startSeq]
    have hstep : Interpret exec W s (startSeq ++ sc ++ closeSeq) =
        interpLoop exec W
          (60 :: ([63, 108, 117, 97] ++ (sc ++ closeSeq))) false 1 [] [] s := by
      simp [Interpret, startSeq, List.append_assoc]
    rw [hstep]
    rw [interpLoop_open exec W 60 ([63, 108, 117, 97] ++ (sc ++ closeSeq))
      1 [] [] s (by
        have heq : (60 : Nat) :: ([63, 108, 117, 97] ++ (sc ++ closeSeq)) =
            startSeq ++ (sc ++ closeSeq) := by
          simp [startSeq]
        rw [heq]
        exact hstart)]
    rw [show List.drop 4 ([63, 108, 117, 97] ++ (sc ++ closeSeq)) =
      sc ++ closeSeq by simp]
    rw [interpLoop_script_run exec W sc closeSeq 1 [] [] s (by
      intro j hj
      have := noClose_context sc [] hscr j hj
      simpa [List.append_assoc] using this)]
    rw [show closeSeq = 63 :: (62 :: ([] : List Nat)) from rfl]
    have hend : isEnd 0 ((63 : Nat) :: (62 :: ([] : List Nat))) = true := by
      rw [isEnd_iff]
      refine ⟨by simp, ?_⟩
      rfl
    have hrec : interpLoop exec W [] false (1 + countNl sc) [] []
        (W.write s (runPrints (exec ([] ++ sc)).prints [])).1 =
        ((W.write s (runPrints (exec ([] ++ sc)).prints [])).1,
         .ok ([], 1 + countNl sc)) := by
      rw [interpLoop_nil]
      simp
    have h := interpLoop_dispatch_ok_ok exec W 63 (62 :: []) (1 + countNl sc)
      ([] ++ sc) [] s _ [] (1 + countNl sc) hend (by simpa using he)
      (by simpa using hrec)
    simpa [printsBytes] using h

/-- Witness for the amended C9: over the always-failing sink, a one-byte
literal document aborts with the write error, while a pure script region
with printed output still succeeds. -/
theorem claim_C9_amended_witness :
    Interpret okExec failSink [] (strBytes "a") =
      ([], Except.error (InterpError.writeErr "write failed")) ∧
    Interpret onePrintExec failSink [] (startSeq ++ strBytes " x " ++ closeSeq) =
      ((failSink.write []
          (printsBytes (onePrintExec (strBytes " x ")).prints)).1,
       Except.ok ([strBytes " x "], 1)) := by
  constructor
  · have h := claim_C9_amended.1 okExec failSink 97 [] [] [] "write failed"
      (by decide) (by decide)
    have hb : strBytes "a" = [97] := by decide
    rw [hb]
    exact h
  · have h := claim_C9_amended.2 onePrintExec failSink (strBytes " x ") []
      (by decide) (by decide)
    have hc : 1 + countNl (strBytes " x ") = 1 := by decide
    rwa [hc] at h

/-- Claim C10: marker recognition is content-blind.  The theorem puts no
restriction whatsoever on occurrences of `<?lua` inside the script bytes
`sc` — an open-marker sequence inside the region is appended to the pending
script buffer as ordinary script text and opens no nested region — and the
region ends at the first occurrence of the two-byte sequence `?>`
(`noCloseOcc sc` says the dispatched chunk contains no earlier one), even
when that occurrence sits inside a Lua string literal: the dispatched chunk
is exactly `sc` and the bytes after `?>` are scanned as literal text. -/
theorem claim_C10 (exec : List Nat → ExecResult) (lt sc fin : List Nat)
    (hlit : noOpenOcc lt) (hscr : noCloseOcc sc) (hfin : noOpenOcc fin)
    (he : (exec sc).err = none) :
    Interpret exec listSink [] (lt ++ startSeq ++ sc ++ closeSeq ++ fin) =
      (lt ++ printsBytes (exec sc).prints ++ fin,
       Except.ok ([sc],
         1 + countNl (lt ++ startSeq ++ sc ++ closeSeq ++ fin))) := by
  have h := interpLoop_assemble exec [⟨lt, sc⟩] fin 1 []
    (by
      intro t ht
      rw [List.mem_singleton] at ht
      subst ht
      exact ⟨hlit, hscr, he⟩) hfin
  have hdoc : assemble [⟨lt, sc⟩] fin =
      lt ++ startSeq ++ sc ++ closeSeq ++ fin := by
    simp [assemble]
  have hrender : render exec [⟨lt, sc⟩] fin =
      lt ++ printsBytes (exec sc).prints ++ fin := by
    simp [render, renderSeg, List.append_assoc]
  have hmap : List.map Seg.scr [(⟨lt, sc⟩ : Seg)] = [sc] := rfl
  rw [hdoc, hrender, hmap] at h
  simpa [Interpret] using h

/-- Witness for C10: in `<?lua <?lua x?>!` the single dispatched chunk is
` <?lua x` — the inner open marker is plain script text — and in
`<?lua print("a?>b") ?>` the region ends at the `?>` inside the string
literal, so the chunk is ` print("a` and `b") ?>` is literal output. -/
theorem claim_C10_witness :
    ([] ++ startSeq ++ strBytes " <?lua x" ++ closeSeq ++ strBytes "!") =
        strBytes "<?lua <?lua x?>!" ∧
    Interpret okExec listSink []
        ([] ++ startSeq ++ strBytes " <?lua x" ++ closeSeq ++ strBytes "!") =
      ([] ++ printsBytes (okExec (strBytes " <?lua x")).prints ++ strBytes "!",
       Except.ok ([strBytes " <?lua x"],
         1 + countNl ([] ++ startSeq ++ strBytes " <?lua x" ++ closeSeq ++
           strBytes "!"))) ∧
    ([] ++ startSeq ++ strBytes " print(\"a" ++ closeSeq ++
        strBytes "b\") ?>") = strBytes "<?lua print(\"a?>b\") ?>" ∧
    Interpret okExec listSink []
        ([] ++ startSeq ++ strBytes " print(\"a" ++ closeSeq ++
          strBytes "b\") ?>") =
      ([] ++ printsBytes (okExec (strBytes " print(\"a")).prints ++
          strBytes "b\") ?>",
       Except.ok ([strBytes " print(\"a"],
         1 + countNl ([] ++ startSeq ++ strBytes " print(\"a" ++ closeSeq ++
           strBytes "b\") ?>"))) := by
  refine ⟨by decide, ?_, by decide, ?_⟩
  · exact claim_C10 okExec [] (strBytes " <?lua x") (strBytes "!")
      (by decide) (by decide) (by decide) (by decide)
  · exact claim_C10 okExec [] (strBytes " print(\"a") (strBytes "b\") ?>")
      (by decide) (by decide) (by decide) (by decide)

end CaddyLua
